import Mathlib

/-!
Shallow embedding of the OnyxChainStorage contract
(contracts/OnyxChainStorage.sol): a file registry with ownership,
sharing grants, tombstone deletion, a public-file index and per-byte
storage fees. Addresses are modelled as natural numbers with 0 as the
zero address, uint256 arithmetic as Nat with the checked-arithmetic
reverts of the 0.8 compiler made explicit, Solidity mappings as total
functions with zero-initialized defaults, and every external entry
point as a function returning Except: an error is a revert and leaves
the state unchanged.
-/

namespace OnyxChain

/-- Largest value representable by the uint256 machine integers of the source platform. -/
def UINT256MAX : Nat := 2 ^ 256 - 1

/-- Metadata record of one stored file, mirroring the File struct of the
contract. The sharedWith mapping from addresses to booleans is a total
function defaulting to false. -/
structure File where
  id : Nat
  fileName : String
  fileType : String
  fileSize : Nat
  ipfsHash : String
  description : String
  owner : Nat
  uploadTimestamp : Nat
  isPublic : Bool
  isDeleted : Bool
  sharedWith : Nat → Bool

/-- Default value of the files mapping: every field zero-initialized. -/
def File.empty : File :=
  { id := 0, fileName := "", fileType := "", fileSize := 0, ipfsHash := "",
    description := "", owner := 0, uploadTimestamp := 0, isPublic := false,
    isDeleted := false, sharedWith := fun _ => false }

/-- Revert conditions of the contract, one constructor per require message,
plus the checked-arithmetic revert of the compiler:
insufficientPayment for "Insufficient Ether sent to cover storage fees",
fileDoesNotExist for "File does not exist",
onlyOwnerCanDelete / onlyOwnerCanShare / onlyOwnerCanRevoke for the three
owner checks, fileAlreadyDeleted for "File already deleted",
cannotShareDeleted and cannotModifyDeleted for the deleted-file checks of
shareFile and revokeAccess, invalidRecipient for "Invalid recipient address",
cannotShareWithSelf for "Cannot share with yourself",
fileHasBeenDeleted for "File has been deleted",
noPermission for "You do not have permission to access this file",
ownableUnauthorized for the onlyOwner modifier,
noFundsToWithdraw for "No funds available to withdraw". -/
inductive SolError where
  | insufficientPayment
  | fileDoesNotExist
  | onlyOwnerCanDelete
  | fileAlreadyDeleted
  | onlyOwnerCanShare
  | cannotShareDeleted
  | invalidRecipient
  | cannotShareWithSelf
  | onlyOwnerCanRevoke
  | cannotModifyDeleted
  | fileHasBeenDeleted
  | noPermission
  | ownableUnauthorized
  | noFundsToWithdraw
  | arithmeticOverflow
deriving DecidableEq

/-- Error taxonomy of the specification, section 7. -/
inductive SpecError where
  | notFound
  | forbidden
  | alreadyDeleted
  | invalidRecipient
  | insufficientPayment
  | unauthorized
  | noFunds
  | overflow
deriving DecidableEq

/-- Modelled from the spec: section 7 assigns every failure of the registry
to one class; NotFound covers a record that is absent or tombstoned (section
4 read states that exists-but-deleted is surfaced as not-found), Forbidden
covers a caller lacking the required relationship to the record,
InvalidRecipient covers recipient validation, Unauthorized covers an
administrative operation by a non-administrator. -/
def specClass : SolError → SpecError
  | SolError.insufficientPayment => SpecError.insufficientPayment
  | SolError.fileDoesNotExist => SpecError.notFound
  | SolError.onlyOwnerCanDelete => SpecError.forbidden
  | SolError.fileAlreadyDeleted => SpecError.alreadyDeleted
  | SolError.onlyOwnerCanShare => SpecError.forbidden
  | SolError.cannotShareDeleted => SpecError.alreadyDeleted
  | SolError.invalidRecipient => SpecError.invalidRecipient
  | SolError.cannotShareWithSelf => SpecError.invalidRecipient
  | SolError.onlyOwnerCanRevoke => SpecError.forbidden
  | SolError.cannotModifyDeleted => SpecError.alreadyDeleted
  | SolError.fileHasBeenDeleted => SpecError.notFound
  | SolError.noPermission => SpecError.forbidden
  | SolError.ownableUnauthorized => SpecError.unauthorized
  | SolError.noFundsToWithdraw => SpecError.noFunds
  | SolError.arithmeticOverflow => SpecError.overflow

/-- Full storage of the deployed contract, plus its Ether balance and the
Ownable administrator address. -/
structure ContractState where
  storageFeePerByte : Nat
  fileIdCounter : Nat
  files : Nat → File
  userFiles : Nat → List Nat
  publicFiles : List Nat
  contractOwner : Nat
  balance : Nat

/-- State right after deployment by the given address: fee 1000 wei per
byte, id counter 0, every mapping zero-initialized, empty public index. -/
def deployState (deployer : Nat) : ContractState :=
  { storageFeePerByte := 1000, fileIdCounter := 0, files := fun _ => File.empty,
    userFiles := fun _ => [], publicFiles := [], contractOwner := deployer,
    balance := 0 }

/-- Index of the first occurrence of x, mirroring the scan-and-break loop
of deleteFile over the public files array. -/
def findIndex : List Nat → Nat → Option Nat
  | [], _ => none
  | a :: t, x => if a = x then some 0 else (findIndex t x).map (· + 1)

/-- Swap-with-last removal performed by deleteFile on the public files
array: overwrite the first occurrence of x with the last element, then pop
the last element; when x does not occur the array is left unchanged. -/
def swapRemove (l : List Nat) (x : Nat) : List Nat :=
  match findIndex l x with
  | none => l
  | some i => (l.set i (l.getLastD 0)).dropLast

/-- calculateStorageFee: fileSize times storageFeePerByte, with the checked
multiplication of the 0.8 compiler made explicit. -/
def calculateStorageFee (s : ContractState) (fileSize : Nat) : Except SolError Nat :=
  if fileSize * s.storageFeePerByte ≤ UINT256MAX then
    Except.ok (fileSize * s.storageFeePerByte)
  else Except.error SolError.arithmeticOverflow

/-- uploadFile: charge the storage fee, allocate the next id, store the
record, append the id to the caller file list and, when public, to the
public index, and refund the excess payment. Returns the new id, the
refunded amount and the new state; the contract retains exactly the fee. -/
def uploadFile (s : ContractState) (sender msgValue : Nat)
    (fileName fileType : String) (fileSize : Nat)
    (ipfsHash description : String) (isPublic : Bool) (timestamp : Nat) :
    Except SolError (Nat × Nat × ContractState) :=
  match calculateStorageFee s fileSize with
  | Except.error e => Except.error e
  | Except.ok storageFee =>
    if msgValue < storageFee then Except.error SolError.insufficientPayment
    else if s.fileIdCounter + 1 > UINT256MAX then Except.error SolError.arithmeticOverflow
    else
      let fileId := s.fileIdCounter
      let newFile : File :=
        { id := fileId, fileName := fileName, fileType := fileType,
          fileSize := fileSize, ipfsHash := ipfsHash, description := description,
          owner := sender, uploadTimestamp := timestamp, isPublic := isPublic,
          isDeleted := false, sharedWith := fun _ => false }
      Except.ok (fileId, msgValue - storageFee,
        { s with
          fileIdCounter := s.fileIdCounter + 1,
          files := Function.update s.files fileId newFile,
          userFiles := Function.update s.userFiles sender (s.userFiles sender ++ [fileId]),
          publicFiles := if isPublic then s.publicFiles ++ [fileId] else s.publicFiles,
          balance := s.balance + storageFee })

/-- deleteFile: owner-only tombstone deletion; when the file is public its
id is removed from the public files array by swap-with-last. -/
def deleteFile (s : ContractState) (sender fileId : Nat) : Except SolError ContractState :=
  if s.fileIdCounter ≤ fileId then Except.error SolError.fileDoesNotExist
  else if (s.files fileId).owner ≠ sender then Except.error SolError.onlyOwnerCanDelete
  else if (s.files fileId).isDeleted then Except.error SolError.fileAlreadyDeleted
  else
    let f := s.files fileId
    let s1 := { s with files := Function.update s.files fileId { f with isDeleted := true } }
    Except.ok (if f.isPublic
      then { s1 with publicFiles := swapRemove s1.publicFiles fileId }
      else s1)

/-- shareFile: owner-only grant of read access to a recipient; rejects the
zero address and the owner itself; the sharedWith mapping entry is set true. -/
def shareFile (s : ContractState) (sender fileId recipient : Nat) :
    Except SolError ContractState :=
  if s.fileIdCounter ≤ fileId then Except.error SolError.fileDoesNotExist
  else if (s.files fileId).owner ≠ sender then Except.error SolError.onlyOwnerCanShare
  else if (s.files fileId).isDeleted then Except.error SolError.cannotShareDeleted
  else if recipient = 0 then Except.error SolError.invalidRecipient
  else if recipient = sender then Except.error SolError.cannotShareWithSelf
  else
    let f := s.files fileId
    let f1 : File := { f with sharedWith := Function.update f.sharedWith recipient true }
    Except.ok { s with files := Function.update s.files fileId f1 }

/-- revokeAccess: owner-only revocation; the sharedWith mapping entry of
the recipient is set false; the recipient itself is not validated. -/
def revokeAccess (s : ContractState) (sender fileId recipient : Nat) :
    Except SolError ContractState :=
  if s.fileIdCounter ≤ fileId then Except.error SolError.fileDoesNotExist
  else if (s.files fileId).owner ≠ sender then Except.error SolError.onlyOwnerCanRevoke
  else if (s.files fileId).isDeleted then Except.error SolError.cannotModifyDeleted
  else
    let f := s.files fileId
    let f1 : File := { f with sharedWith := Function.update f.sharedWith recipient false }
    Except.ok { s with files := Function.update s.files fileId f1 }

/-- getMyFiles: the file ids of the caller with the deleted ones filtered
out, built in creation order by the count-then-fill loops of the source. -/
def getMyFiles (s : ContractState) (sender : Nat) : List Nat :=
  (s.userFiles sender).foldl
    (fun acc i => if (s.files i).isDeleted then acc else acc ++ [i]) []

/-- getFile: metadata read; requires the file to exist, to not be deleted,
and the caller to be the owner, or the file public, or the caller granted. -/
def getFile (s : ContractState) (sender fileId : Nat) :
    Except SolError (Nat × String × String × Nat × String × String × Nat × Nat × Bool) :=
  if s.fileIdCounter ≤ fileId then Except.error SolError.fileDoesNotExist
  else
    let f := s.files fileId
    if f.isDeleted then Except.error SolError.fileHasBeenDeleted
    else if f.owner = sender ∨ f.isPublic ∨ f.sharedWith sender then
      Except.ok (f.id, f.fileName, f.fileType, f.fileSize, f.ipfsHash,
        f.description, f.owner, f.uploadTimestamp, f.isPublic)
    else Except.error SolError.noPermission

/-- getPublicFiles: returns the public files array verbatim. -/
def getPublicFiles (s : ContractState) : List Nat :=
  s.publicFiles

/-- hasFileAccess: access predicate for an existing non-deleted file. -/
def hasFileAccess (s : ContractState) (fileId user : Nat) : Except SolError Bool :=
  if s.fileIdCounter ≤ fileId then Except.error SolError.fileDoesNotExist
  else if (s.files fileId).isDeleted then Except.error SolError.fileHasBeenDeleted
  else
    let f := s.files fileId
    Except.ok (decide (f.owner = user) || f.isPublic || f.sharedWith user)

/-- updateStorageFee: administrator-only update of the per-byte fee rate. -/
def updateStorageFee (s : ContractState) (sender newFeePerByte : Nat) :
    Except SolError ContractState :=
  if sender ≠ s.contractOwner then Except.error SolError.ownableUnauthorized
  else Except.ok { s with storageFeePerByte := newFeePerByte }

/-- withdrawFunds: administrator-only withdrawal of the whole contract
balance; fails when the balance is zero. Returns the transfer recipient,
the transferred amount and the new state. -/
def withdrawFunds (s : ContractState) (sender : Nat) :
    Except SolError (Nat × Nat × ContractState) :=
  if sender ≠ s.contractOwner then Except.error SolError.ownableUnauthorized
  else if s.balance = 0 then Except.error SolError.noFundsToWithdraw
  else Except.ok (s.contractOwner, s.balance, { s with balance := 0 })

/-- getContractBalance: administrator-only view of the contract balance. -/
def getContractBalance (s : ContractState) (sender : Nat) : Except SolError Nat :=
  if sender ≠ s.contractOwner then Except.error SolError.ownableUnauthorized
  else Except.ok s.balance

/-- One external transaction with its arguments. -/
inductive Op where
  | upload (sender msgValue : Nat) (fileName fileType : String) (fileSize : Nat)
      (ipfsHash description : String) (isPublic : Bool) (timestamp : Nat)
  | delete (sender fileId : Nat)
  | share (sender fileId recipient : Nat)
  | revoke (sender fileId recipient : Nat)
  | setFee (sender newFeePerByte : Nat)
  | withdraw (sender : Nat)

/-- One transaction against the contract: a successful call commits its new
state, a revert leaves the state unchanged. -/
def step (s : ContractState) : Op → ContractState
  | Op.upload sender msgValue fileName fileType fileSize ipfsHash description isPublic timestamp =>
    match uploadFile s sender msgValue fileName fileType fileSize ipfsHash description isPublic timestamp with
    | Except.ok r => r.2.2
    | Except.error _ => s
  | Op.delete sender fileId =>
    match deleteFile s sender fileId with
    | Except.ok s1 => s1
    | Except.error _ => s
  | Op.share sender fileId recipient =>
    match shareFile s sender fileId recipient with
    | Except.ok s1 => s1
    | Except.error _ => s
  | Op.revoke sender fileId recipient =>
    match revokeAccess s sender fileId recipient with
    | Except.ok s1 => s1
    | Except.error _ => s
  | Op.setFee sender newFeePerByte =>
    match updateStorageFee s sender newFeePerByte with
    | Except.ok s1 => s1
    | Except.error _ => s
  | Op.withdraw sender =>
    match withdrawFunds s sender with
    | Except.ok r => r.2.2
    | Except.error _ => s

/-- Run a sequence of transactions from a state. -/
def run (s : ContractState) (ops : List Op) : ContractState :=
  ops.foldl step s

/-- A state is reachable when some transaction sequence from deployment
produces it. -/
def Reachable (s : ContractState) : Prop :=
  ∃ deployer ops, run (deployState deployer) ops = s

/-! ### List helper lemmas for the swap-with-last removal -/

lemma getLastD_eq_of_ne_nil (l : List Nat) (d₁ d₂ : Nat) (h : l ≠ []) :
    l.getLastD d₁ = l.getLastD d₂ := by
  rcases List.eq_nil_or_concat l with rfl | ⟨t, b, rfl⟩
  · exact absurd rfl h
  · simp [List.concat_eq_append]

lemma findIndex_of_not_mem {l : List Nat} {x : Nat} (h : x ∉ l) :
    findIndex l x = none := by
  induction l with
  | nil => rfl
  | cons a t ih =>
    have hax : a ≠ x := fun hc => h (hc ▸ List.mem_cons_self a t)
    have hxt : x ∉ t := fun hc => h (List.mem_cons_of_mem a hc)
    simp [findIndex, hax, ih hxt]

lemma swapRemove_of_not_mem {l : List Nat} {x : Nat} (h : x ∉ l) :
    swapRemove l x = l := by
  simp [swapRemove, findIndex_of_not_mem h]

lemma findIndex_isSome_of_mem {l : List Nat} {x : Nat} (h : x ∈ l) :
    ∃ i, findIndex l x = some i := by
  induction l with
  | nil => exact absurd h (List.not_mem_nil x)
  | cons a t ih =>
    by_cases hax : a = x
    · exact ⟨0, by simp [findIndex, hax]⟩
    · rcases List.mem_cons.mp h with h1 | h1
      · exact absurd h1.symm hax
      · obtain ⟨i, hi⟩ := ih h1
        exact ⟨i + 1, by simp [findIndex, hax, hi]⟩

lemma dropLast_cons_of_ne_nil (a : Nat) {m : List Nat} (h : m ≠ []) :
    (a :: m).dropLast = a :: m.dropLast := by
  cases m with
  | nil => exact absurd rfl h
  | cons b t => rfl

lemma set_ne_nil {t : List Nat} (i g : Nat) (h : t ≠ []) : t.set i g ≠ [] := by
  intro hc
  exact h (List.eq_nil_of_length_eq_zero (by simpa using congrArg List.length hc))

lemma swapRemove_cons_ne {a x : Nat} {t : List Nat} (hax : a ≠ x) (hx : x ∈ t) :
    swapRemove (a :: t) x = a :: swapRemove t x := by
  obtain ⟨i, hi⟩ := findIndex_isSome_of_mem hx
  have ht : t ≠ [] := List.ne_nil_of_mem hx
  have hfi : findIndex (a :: t) x = some (i + 1) := by
    simp [findIndex, hax, hi]
  have hg : (a :: t).getLastD 0 = t.getLastD 0 := by
    rw [List.getLastD_cons]
    exact getLastD_eq_of_ne_nil t a 0 ht
  simp only [swapRemove, hfi, hi, hg]
  rw [show (a :: t).set (i + 1) (t.getLastD 0) = a :: t.set i (t.getLastD 0) from rfl]
  exact dropLast_cons_of_ne_nil a (set_ne_nil i _ ht)

lemma swapRemove_perm {l : List Nat} {x : Nat} (h : x ∈ l) :
    List.Perm (swapRemove l x) (l.erase x) := by
  induction l with
  | nil => exact absurd h (List.not_mem_nil x)
  | cons a t ih =>
    by_cases hax : a = x
    · subst hax
      rw [List.erase_cons_head]
      rcases List.eq_nil_or_concat t with rfl | ⟨t', b, ht⟩
      · simp [swapRemove, findIndex]
      · rw [List.concat_eq_append] at ht
        subst ht
        have hfi : findIndex (a :: (t' ++ [b])) a = some 0 := by simp [findIndex]
        have hg : (a :: (t' ++ [b])).getLastD 0 = b := by
          rw [List.getLastD_cons]
          simp
        simp only [swapRemove, hfi, hg]
        rw [show (a :: (t' ++ [b])).set 0 b = b :: (t' ++ [b]) from rfl]
        rw [dropLast_cons_of_ne_nil b (by simp), List.dropLast_concat]
        exact (List.perm_append_singleton b t').symm
    · have hxt : x ∈ t := by
        rcases List.mem_cons.mp h with h1 | h1
        · exact absurd h1.symm hax
        · exact h1
      rw [swapRemove_cons_ne hax hxt,
        List.erase_cons_tail (by simp [hax])]
      exact List.Perm.cons a (ih hxt)

lemma swapRemove_nodup {l : List Nat} {x : Nat} (h : x ∈ l) (hnd : l.Nodup) :
    (swapRemove l x).Nodup :=
  (swapRemove_perm h).nodup_iff.mpr (hnd.erase x)

lemma mem_swapRemove {l : List Nat} {x y : Nat} (hnd : l.Nodup) (h : x ∈ l) :
    y ∈ swapRemove l x ↔ y ∈ l ∧ y ≠ x := by
  rw [(swapRemove_perm h).mem_iff, hnd.mem_erase_iff]
  tauto

/-! ### The count-then-fill loops of getMyFiles build a filter -/

lemma foldl_append_filter (d : Nat → Bool) (l acc : List Nat) :
    l.foldl (fun acc i => if d i then acc else acc ++ [i]) acc
      = acc ++ l.filter (fun i => !d i) := by
  induction l generalizing acc with
  | nil => simp
  | cons a t ih =>
    by_cases hda : d a
    · simp [List.foldl_cons, hda, ih, List.filter_cons]
    · simp [List.foldl_cons, hda, ih, List.filter_cons]

lemma getMyFiles_eq_filter (s : ContractState) (c : Nat) :
    getMyFiles s c = (s.userFiles c).filter (fun i => !(s.files i).isDeleted) := by
  have := foldl_append_filter (fun i => (s.files i).isDeleted) (s.userFiles c) []
  simpa [getMyFiles] using this

/-! ### Success-branch characterizations of the mutating operations -/

/-- Record stored by a successful uploadFile call. -/
def uploadedFile (s : ContractState) (sender : Nat) (fileName fileType : String)
    (fileSize : Nat) (ipfsHash description : String) (isPublic : Bool)
    (timestamp : Nat) : File :=
  { id := s.fileIdCounter, fileName := fileName, fileType := fileType,
    fileSize := fileSize, ipfsHash := ipfsHash, description := description,
    owner := sender, uploadTimestamp := timestamp, isPublic := isPublic,
    isDeleted := false, sharedWith := fun _ => false }

/-- State committed by a successful uploadFile call. -/
def uploadedState (s : ContractState) (sender : Nat) (fileName fileType : String)
    (fileSize : Nat) (ipfsHash description : String) (isPublic : Bool)
    (timestamp : Nat) : ContractState :=
  { s with
    fileIdCounter := s.fileIdCounter + 1,
    files := Function.update s.files s.fileIdCounter
      (uploadedFile s sender fileName fileType fileSize ipfsHash description isPublic timestamp),
    userFiles := Function.update s.userFiles sender (s.userFiles sender ++ [s.fileIdCounter]),
    publicFiles := if isPublic then s.publicFiles ++ [s.fileIdCounter] else s.publicFiles,
    balance := s.balance + fileSize * s.storageFeePerByte }

lemma uploadFile_eq (s : ContractState) (sender msgValue : Nat)
    (fileName fileType : String) (fileSize : Nat) (ipfsHash description : String)
    (isPublic : Bool) (timestamp : Nat) :
    uploadFile s sender msgValue fileName fileType fileSize ipfsHash description isPublic timestamp
      = if fileSize * s.storageFeePerByte ≤ UINT256MAX then
          (if msgValue < fileSize * s.storageFeePerByte then
            Except.error SolError.insufficientPayment
          else if s.fileIdCounter + 1 > UINT256MAX then
            Except.error SolError.arithmeticOverflow
          else Except.ok (s.fileIdCounter, msgValue - fileSize * s.storageFeePerByte,
            uploadedState s sender fileName fileType fileSize ipfsHash description isPublic timestamp))
        else Except.error SolError.arithmeticOverflow := by
  by_cases hfee : fileSize * s.storageFeePerByte ≤ UINT256MAX <;>
    simp [uploadFile, calculateStorageFee, uploadedState, uploadedFile, hfee]

lemma uploadFile_ok_inv {s : ContractState} {sender msgValue : Nat}
    {fileName fileType : String} {fileSize : Nat} {ipfsHash description : String}
    {isPublic : Bool} {timestamp : Nat} {out : Nat × Nat × ContractState}
    (h : uploadFile s sender msgValue fileName fileType fileSize ipfsHash description
      isPublic timestamp = Except.ok out) :
    fileSize * s.storageFeePerByte ≤ UINT256MAX ∧
    fileSize * s.storageFeePerByte ≤ msgValue ∧
    s.fileIdCounter + 1 ≤ UINT256MAX ∧
    out = (s.fileIdCounter, msgValue - fileSize * s.storageFeePerByte,
      uploadedState s sender fileName fileType fileSize ipfsHash description isPublic timestamp) := by
  rw [uploadFile_eq] at h
  split at h
  case isFalse => simp at h
  case isTrue hfee =>
    split at h
    case isTrue => simp at h
    case isFalse hval =>
      split at h
      case isTrue => simp at h
      case isFalse hctr =>
        cases h
        exact ⟨hfee, by omega, by omega, rfl⟩

/-- State committed by a successful deleteFile call. -/
def deletedState (s : ContractState) (fileId : Nat) : ContractState :=
  let f := s.files fileId
  let s1 := { s with files := Function.update s.files fileId { f with isDeleted := true } }
  if f.isPublic then { s1 with publicFiles := swapRemove s1.publicFiles fileId } else s1

lemma deleteFile_ok_inv {s : ContractState} {sender fileId : Nat} {s1 : ContractState}
    (h : deleteFile s sender fileId = Except.ok s1) :
    fileId < s.fileIdCounter ∧ (s.files fileId).owner = sender ∧
    (s.files fileId).isDeleted = false ∧ s1 = deletedState s fileId := by
  unfold deleteFile at h
  split at h
  case isTrue => simp at h
  case isFalse hex =>
    split at h
    case isTrue => simp at h
    case isFalse hown =>
      split at h
      case isTrue => simp at h
      case isFalse hdel =>
        cases h
        exact ⟨by omega, by tauto, by simpa using hdel, rfl⟩

/-- State committed by a successful shareFile or revokeAccess call: the
sharedWith entry of the recipient is set to the given boolean. -/
def sharedState (s : ContractState) (fileId recipient : Nat) (b : Bool) : ContractState :=
  let f := s.files fileId
  let f1 : File := { f with sharedWith := Function.update f.sharedWith recipient b }
  { s with files := Function.update s.files fileId f1 }

lemma shareFile_ok_inv {s : ContractState} {sender fileId recipient : Nat} {s1 : ContractState}
    (h : shareFile s sender fileId recipient = Except.ok s1) :
    fileId < s.fileIdCounter ∧ (s.files fileId).owner = sender ∧
    (s.files fileId).isDeleted = false ∧ recipient ≠ 0 ∧ recipient ≠ sender ∧
    s1 = sharedState s fileId recipient true := by
  unfold shareFile at h
  split at h
  case isTrue => simp at h
  case isFalse hex =>
    split at h
    case isTrue => simp at h
    case isFalse hown =>
      split at h
      case isTrue => simp at h
      case isFalse hdel =>
        split at h
        case isTrue => simp at h
        case isFalse hzero =>
          split at h
          case isTrue => simp at h
          case isFalse hself =>
            cases h
            exact ⟨by omega, by tauto, by simpa using hdel, hzero, hself, rfl⟩

lemma revokeAccess_ok_inv {s : ContractState} {sender fileId recipient : Nat} {s1 : ContractState}
    (h : revokeAccess s sender fileId recipient = Except.ok s1) :
    fileId < s.fileIdCounter ∧ (s.files fileId).owner = sender ∧
    (s.files fileId).isDeleted = false ∧ s1 = sharedState s fileId recipient false := by
  unfold revokeAccess at h
  split at h
  case isTrue => simp at h
  case isFalse hex =>
    split at h
    case isTrue => simp at h
    case isFalse hown =>
      split at h
      case isTrue => simp at h
      case isFalse hdel =>
        cases h
        exact ⟨by omega, by tauto, by simpa using hdel, rfl⟩

lemma updateStorageFee_ok_inv {s : ContractState} {sender newFeePerByte : Nat}
    {s1 : ContractState} (h : updateStorageFee s sender newFeePerByte = Except.ok s1) :
    sender = s.contractOwner ∧ s1 = { s with storageFeePerByte := newFeePerByte } := by
  unfold updateStorageFee at h
  split at h
  case isTrue => simp at h
  case isFalse hs =>
    cases h
    exact ⟨by tauto, rfl⟩

lemma withdrawFunds_ok_inv {s : ContractState} {sender : Nat} {out : Nat × Nat × ContractState}
    (h : withdrawFunds s sender = Except.ok out) :
    sender = s.contractOwner ∧ 0 < s.balance ∧
    out = (s.contractOwner, s.balance, { s with balance := 0 }) := by
  unfold withdrawFunds at h
  split at h
  case isTrue => simp at h
  case isFalse hs =>
    split at h
    case isTrue => simp at h
    case isFalse hb =>
      cases h
      exact ⟨by tauto, by omega, rfl⟩

lemma deletedState_files (s : ContractState) (fileId : Nat) :
    (deletedState s fileId).files
      = Function.update s.files fileId { s.files fileId with isDeleted := true } := by
  unfold deletedState
  dsimp only
  split <;> rfl

lemma deletedState_fileIdCounter (s : ContractState) (fileId : Nat) :
    (deletedState s fileId).fileIdCounter = s.fileIdCounter := by
  unfold deletedState
  dsimp only
  split <;> rfl

lemma deletedState_userFiles (s : ContractState) (fileId : Nat) :
    (deletedState s fileId).userFiles = s.userFiles := by
  unfold deletedState
  dsimp only
  split <;> rfl

/-! ### Global state invariant and its preservation -/

/-- Invariant maintained by every transaction: the public files array has no
duplicates and holds exactly the ids of public non-deleted records, and every
record at or beyond the id counter is still zero-initialized. -/
def StateInv (s : ContractState) : Prop :=
  s.publicFiles.Nodup ∧
  (∀ i, i ∈ s.publicFiles ↔ ((s.files i).isPublic = true ∧ (s.files i).isDeleted = false)) ∧
  (∀ i, s.fileIdCounter ≤ i → s.files i = File.empty)

lemma stateInv_deploy (d : Nat) : StateInv (deployState d) := by
  refine ⟨List.nodup_nil, fun i => ?_, fun i _ => rfl⟩
  simp [deployState, File.empty]

lemma stateInv_uploadedState {s : ContractState} (hInv : StateInv s) (sender : Nat)
    (fileName fileType : String) (fileSize : Nat) (ipfsHash description : String)
    (isPublic : Bool) (timestamp : Nat) :
    StateInv (uploadedState s sender fileName fileType fileSize ipfsHash description
      isPublic timestamp) := by
  obtain ⟨hnd, hmem, hempty⟩ := hInv
  have hcnot : s.fileIdCounter ∉ s.publicFiles := by
    intro hc
    have h2 := (hmem _).mp hc
    rw [hempty _ (le_refl _)] at h2
    simp [File.empty] at h2
  refine ⟨?_, fun i => ?_, fun i hi => ?_⟩
  · cases hb : isPublic with
    | true =>
      simp only [uploadedState, hb, if_true]
      exact ((List.perm_append_singleton _ _).nodup_iff).mpr (List.nodup_cons.mpr ⟨hcnot, hnd⟩)
    | false =>
      simpa [uploadedState, hb] using hnd
  · by_cases hic : i = s.fileIdCounter
    · subst hic
      cases hb : isPublic with
      | true => simp [uploadedState, uploadedFile, hb, Function.update_same]
      | false => simp [uploadedState, uploadedFile, hb, Function.update_same, hcnot]
    · cases hb : isPublic with
      | true => simpa [uploadedState, hb, Function.update_noteq hic, hic] using hmem i
      | false => simpa [uploadedState, hb, Function.update_noteq hic] using hmem i
  · simp only [uploadedState] at hi
    have hic : i ≠ s.fileIdCounter := by omega
    simpa [uploadedState, Function.update_noteq hic] using hempty i (by omega)

lemma stateInv_deletedState {s : ContractState} (hInv : StateInv s) {fileId : Nat}
    (hlt : fileId < s.fileIdCounter) (hdel : (s.files fileId).isDeleted = false) :
    StateInv (deletedState s fileId) := by
  obtain ⟨hnd, hmem, hempty⟩ := hInv
  cases hp : (s.files fileId).isPublic with
  | true =>
    have hin : fileId ∈ s.publicFiles := (hmem fileId).mpr ⟨hp, hdel⟩
    refine ⟨?_, fun i => ?_, fun i hi => ?_⟩
    · simpa [deletedState, hp] using swapRemove_nodup hin hnd
    · by_cases hic : i = fileId
      · subst hic
        simp [deletedState, hp, mem_swapRemove hnd hin, Function.update_same]
      · have h2 := hmem i
        simp [deletedState, hp, mem_swapRemove hnd hin, Function.update_noteq hic, hic]
        tauto
    · rw [deletedState_files]
      rw [deletedState_fileIdCounter] at hi
      have hic : i ≠ fileId := by omega
      rw [Function.update_noteq hic]
      exact hempty i hi
  | false =>
    have hnin : fileId ∉ s.publicFiles := by
      intro hc
      have h2 := (hmem _).mp hc
      rw [hp] at h2
      simp at h2
    refine ⟨by simpa [deletedState, hp] using hnd, fun i => ?_, fun i hi => ?_⟩
    · by_cases hic : i = fileId
      · subst hic
        simp [deletedState, hp, hnin, Function.update_same]
      · simpa [deletedState, hp, Function.update_noteq hic] using hmem i
    · rw [deletedState_files]
      rw [deletedState_fileIdCounter] at hi
      have hic : i ≠ fileId := by omega
      rw [Function.update_noteq hic]
      exact hempty i hi

lemma stateInv_sharedState {s : ContractState} (hInv : StateInv s) {fileId : Nat}
    (hlt : fileId < s.fileIdCounter) (recipient : Nat) (b : Bool) :
    StateInv (sharedState s fileId recipient b) := by
  obtain ⟨hnd, hmem, hempty⟩ := hInv
  refine ⟨by simpa [sharedState] using hnd, fun i => ?_, fun i hi => ?_⟩
  · by_cases hic : i = fileId
    · rw [hic]
      simpa [sharedState, Function.update_same] using hmem fileId
    · simpa [sharedState, Function.update_noteq hic] using hmem i
  · simp only [sharedState] at hi
    have hic : i ≠ fileId := by omega
    simpa [sharedState, Function.update_noteq hic] using hempty i hi

lemma stateInv_step {s : ContractState} (hInv : StateInv s) (op : Op) :
    StateInv (step s op) := by
  cases op with
  | upload sender msgValue fileName fileType fileSize ipfsHash description isPublic timestamp =>
    cases hcall : uploadFile s sender msgValue fileName fileType fileSize ipfsHash
        description isPublic timestamp with
    | error e => simpa [step, hcall] using hInv
    | ok out =>
      obtain ⟨_, _, _, hout⟩ := uploadFile_ok_inv hcall
      have h2 := stateInv_uploadedState hInv sender fileName fileType fileSize ipfsHash
        description isPublic timestamp
      simpa [step, hcall, hout] using h2
  | delete sender fileId =>
    cases hcall : deleteFile s sender fileId with
    | error e => simpa [step, hcall] using hInv
    | ok s1 =>
      obtain ⟨hlt, _, hdel, hs1⟩ := deleteFile_ok_inv hcall
      simpa [step, hcall, hs1] using stateInv_deletedState hInv hlt hdel
  | share sender fileId recipient =>
    cases hcall : shareFile s sender fileId recipient with
    | error e => simpa [step, hcall] using hInv
    | ok s1 =>
      obtain ⟨hlt, _, _, _, _, hs1⟩ := shareFile_ok_inv hcall
      simpa [step, hcall, hs1] using stateInv_sharedState hInv hlt recipient true
  | revoke sender fileId recipient =>
    cases hcall : revokeAccess s sender fileId recipient with
    | error e => simpa [step, hcall] using hInv
    | ok s1 =>
      obtain ⟨hlt, _, _, hs1⟩ := revokeAccess_ok_inv hcall
      simpa [step, hcall, hs1] using stateInv_sharedState hInv hlt recipient false
  | setFee sender newFeePerByte =>
    cases hcall : updateStorageFee s sender newFeePerByte with
    | error e => simpa [step, hcall] using hInv
    | ok s1 =>
      obtain ⟨_, hs1⟩ := updateStorageFee_ok_inv hcall
      obtain ⟨hnd, hmem, hempty⟩ := hInv
      simp only [step, hcall, hs1]
      exact ⟨hnd, hmem, hempty⟩
  | withdraw sender =>
    cases hcall : withdrawFunds s sender with
    | error e => simpa [step, hcall] using hInv
    | ok out =>
      obtain ⟨_, _, hout⟩ := withdrawFunds_ok_inv hcall
      obtain ⟨hnd, hmem, hempty⟩ := hInv
      simp only [step, hcall, hout]
      exact ⟨hnd, hmem, hempty⟩

lemma stateInv_run {s : ContractState} (hInv : StateInv s) (ops : List Op) :
    StateInv (run s ops) := by
  induction ops generalizing s with
  | nil => exact hInv
  | cons op ops ih => exact ih (stateInv_step hInv op)

lemma reachable_stateInv {s : ContractState} (h : Reachable s) : StateInv s := by
  obtain ⟨d, ops, rfl⟩ := h
  exact stateInv_run (stateInv_deploy d) ops

/-! ### Monotone id counter and tombstone persistence -/

lemma step_counter_le (s : ContractState) (op : Op) :
    s.fileIdCounter ≤ (step s op).fileIdCounter := by
  cases op with
  | upload sender msgValue fileName fileType fileSize ipfsHash description isPublic timestamp =>
    cases hcall : uploadFile s sender msgValue fileName fileType fileSize ipfsHash
        description isPublic timestamp with
    | error e => simp [step, hcall]
    | ok out =>
      obtain ⟨_, _, _, hout⟩ := uploadFile_ok_inv hcall
      simp [step, hcall, hout, uploadedState]
  | delete sender fileId =>
    cases hcall : deleteFile s sender fileId with
    | error e => simp [step, hcall]
    | ok s1 =>
      obtain ⟨_, _, _, hs1⟩ := deleteFile_ok_inv hcall
      simp [step, hcall, hs1, deletedState_fileIdCounter]
  | share sender fileId recipient =>
    cases hcall : shareFile s sender fileId recipient with
    | error e => simp [step, hcall]
    | ok s1 =>
      obtain ⟨_, _, _, _, _, hs1⟩ := shareFile_ok_inv hcall
      simp [step, hcall, hs1, sharedState]
  | revoke sender fileId recipient =>
    cases hcall : revokeAccess s sender fileId recipient with
    | error e => simp [step, hcall]
    | ok s1 =>
      obtain ⟨_, _, _, hs1⟩ := revokeAccess_ok_inv hcall
      simp [step, hcall, hs1, sharedState]
  | setFee sender newFeePerByte =>
    cases hcall : updateStorageFee s sender newFeePerByte with
    | error e => simp [step, hcall]
    | ok s1 =>
      obtain ⟨_, hs1⟩ := updateStorageFee_ok_inv hcall
      simp [step, hcall, hs1]
  | withdraw sender =>
    cases hcall : withdrawFunds s sender with
    | error e => simp [step, hcall]
    | ok out =>
      obtain ⟨_, _, hout⟩ := withdrawFunds_ok_inv hcall
      simp [step, hcall, hout]

lemma run_counter_le (s : ContractState) (ops : List Op) :
    s.fileIdCounter ≤ (run s ops).fileIdCounter := by
  induction ops generalizing s with
  | nil => exact le_refl _
  | cons op ops ih => exact le_trans (step_counter_le s op) (ih (step s op))

lemma step_deleted_persists (s : ContractState) (op : Op) {i : Nat}
    (hi : i < s.fileIdCounter) (hd : (s.files i).isDeleted = true) :
    ((step s op).files i).isDeleted = true := by
  cases op with
  | upload sender msgValue fileName fileType fileSize ipfsHash description isPublic timestamp =>
    cases hcall : uploadFile s sender msgValue fileName fileType fileSize ipfsHash
        description isPublic timestamp with
    | error e => simpa [step, hcall] using hd
    | ok out =>
      obtain ⟨_, _, _, hout⟩ := uploadFile_ok_inv hcall
      have hic : i ≠ s.fileIdCounter := by omega
      simpa [step, hcall, hout, uploadedState, Function.update_noteq hic] using hd
  | delete sender fileId =>
    cases hcall : deleteFile s sender fileId with
    | error e => simpa [step, hcall] using hd
    | ok s1 =>
      obtain ⟨_, _, _, hs1⟩ := deleteFile_ok_inv hcall
      by_cases hic : i = fileId
      · subst hic
        simp [step, hcall, hs1, deletedState_files, Function.update_same]
      · simpa [step, hcall, hs1, deletedState_files, Function.update_noteq hic] using hd
  | share sender fileId recipient =>
    cases hcall : shareFile s sender fileId recipient with
    | error e => simpa [step, hcall] using hd
    | ok s1 =>
      obtain ⟨_, _, _, _, _, hs1⟩ := shareFile_ok_inv hcall
      by_cases hic : i = fileId
      · subst hic
        simpa [step, hcall, hs1, sharedState, Function.update_same] using hd
      · simpa [step, hcall, hs1, sharedState, Function.update_noteq hic] using hd
  | revoke sender fileId recipient =>
    cases hcall : revokeAccess s sender fileId recipient with
    | error e => simpa [step, hcall] using hd
    | ok s1 =>
      obtain ⟨_, _, _, hs1⟩ := revokeAccess_ok_inv hcall
      by_cases hic : i = fileId
      · subst hic
        simpa [step, hcall, hs1, sharedState, Function.update_same] using hd
      · simpa [step, hcall, hs1, sharedState, Function.update_noteq hic] using hd
  | setFee sender newFeePerByte =>
    cases hcall : updateStorageFee s sender newFeePerByte with
    | error e => simpa [step, hcall] using hd
    | ok s1 =>
      obtain ⟨_, hs1⟩ := updateStorageFee_ok_inv hcall
      simpa [step, hcall, hs1] using hd
  | withdraw sender =>
    cases hcall : withdrawFunds s sender with
    | error e => simpa [step, hcall] using hd
    | ok out =>
      obtain ⟨_, _, hout⟩ := withdrawFunds_ok_inv hcall
      simpa [step, hcall, hout] using hd

lemma run_deleted_persists (s : ContractState) (ops : List Op) {i : Nat}
    (hi : i < s.fileIdCounter) (hd : (s.files i).isDeleted = true) :
    i < (run s ops).fileIdCounter ∧ ((run s ops).files i).isDeleted = true := by
  induction ops generalizing s with
  | nil => exact ⟨hi, hd⟩
  | cons op ops ih =>
    have h1 : i < (step s op).fileIdCounter := lt_of_lt_of_le hi (step_counter_le s op)
    exact ih (step s op) h1 (step_deleted_persists s op hi hd)

/-! ### Concrete fixture states used by the witness theorems -/

/-- Upload of a private 5-byte file by address 2, paying the exact fee. -/
def wOp0 : Op := Op.upload 2 5000 "a" "txt" 5 "h" "d" false 11

/-- Upload of a public 7-byte file by address 2, overpaying by 2000 wei. -/
def wOp1 : Op := Op.upload 2 9000 "b" "png" 7 "h2" "e" true 12

/-- State after deployment by address 1 and the first upload. -/
def wState0 : ContractState := step (deployState 1) wOp0

/-- State after both uploads: file 0 private, file 1 public, owner 2. -/
def wState1 : ContractState := step wState0 wOp1

/-- State after the owner deletes file 0. -/
def wStateDel : ContractState := step wState1 (Op.delete 2 0)

/-! ### Claim theorems -/

lemma getFile_eq (s : ContractState) (caller fileId : Nat)
    (hex : fileId < s.fileIdCounter) (hdel : (s.files fileId).isDeleted = false) :
    getFile s caller fileId =
      if (s.files fileId).owner = caller ∨ (s.files fileId).isPublic = true ∨
          (s.files fileId).sharedWith caller = true
      then Except.ok ((s.files fileId).id, (s.files fileId).fileName,
        (s.files fileId).fileType, (s.files fileId).fileSize, (s.files fileId).ipfsHash,
        (s.files fileId).description, (s.files fileId).owner,
        (s.files fileId).uploadTimestamp, (s.files fileId).isPublic)
      else Except.error SolError.noPermission := by
  unfold getFile
  rw [if_neg (not_le.mpr hex)]
  dsimp only
  rw [if_neg (by simp [hdel])]

/-- C1: for every file id that exists and is not deleted, getFile succeeds
iff the caller is the record owner, or the record is public, or the caller
is in the grants set; every other caller fails with the no-permission
revert, which the spec taxonomy classes as Forbidden; hasFileAccess
computes exactly the same access predicate. -/
theorem getFile_access_closure (s : ContractState) (caller fileId : Nat)
    (hex : fileId < s.fileIdCounter)
    (hdel : (s.files fileId).isDeleted = false) :
    ((∃ r, getFile s caller fileId = Except.ok r) ↔
      ((s.files fileId).owner = caller ∨ (s.files fileId).isPublic = true ∨
        (s.files fileId).sharedWith caller = true)) ∧
    (¬ ((s.files fileId).owner = caller ∨ (s.files fileId).isPublic = true ∨
        (s.files fileId).sharedWith caller = true) →
      getFile s caller fileId = Except.error SolError.noPermission ∧
      specClass SolError.noPermission = SpecError.forbidden) ∧
    hasFileAccess s fileId caller = Except.ok
      (decide ((s.files fileId).owner = caller) || (s.files fileId).isPublic ||
        (s.files fileId).sharedWith caller) := by
  have he := getFile_eq s caller fileId hex hdel
  have hh : hasFileAccess s fileId caller = Except.ok
      (decide ((s.files fileId).owner = caller) || (s.files fileId).isPublic ||
        (s.files fileId).sharedWith caller) := by
    unfold hasFileAccess
    rw [if_neg (not_le.mpr hex)]
    dsimp only
    rw [if_neg (by simp [hdel])]
  by_cases hacc : (s.files fileId).owner = caller ∨ (s.files fileId).isPublic = true ∨
      (s.files fileId).sharedWith caller = true
  · rw [if_pos hacc] at he
    exact ⟨⟨fun _ => hacc, fun _ => ⟨_, he⟩⟩, fun hc => absurd hacc hc, hh⟩
  · rw [if_neg hacc] at he
    refine ⟨⟨?_, fun hc => absurd hc hacc⟩, fun _ => ⟨he, rfl⟩, hh⟩
    rintro ⟨r, hr⟩
    rw [he] at hr
    simp at hr

/-- Witness for C1: in the two-upload fixture state, the stranger address 3
is refused access to the private file 0. -/
theorem getFile_access_closure_witness :
    getFile wState1 3 0 = Except.error SolError.noPermission :=
  ((getFile_access_closure wState1 3 0 (by decide) (by decide)).2.1 (by decide)).1

/-- C2: uploadFile with paidAmount = fee + extra succeeds, allocates the
current counter as id, refunds exactly extra and retains exactly the fee in
the contract balance; a payment strictly below the fee reverts with
insufficientPayment and the transaction leaves the state unchanged. Stated
under the no-overflow side conditions of the checked uint256 arithmetic. -/
theorem uploadFile_fee_conservation (s : ContractState) (sender extra msgValue : Nat)
    (fileName fileType : String) (fileSize : Nat) (ipfsHash description : String)
    (isPublic : Bool) (timestamp : Nat)
    (hfee : fileSize * s.storageFeePerByte ≤ UINT256MAX)
    (hctr : s.fileIdCounter + 1 ≤ UINT256MAX) :
    (∃ s1, uploadFile s sender (fileSize * s.storageFeePerByte + extra) fileName fileType
        fileSize ipfsHash description isPublic timestamp
        = Except.ok (s.fileIdCounter, extra, s1) ∧
      s1.balance = s.balance + fileSize * s.storageFeePerByte) ∧
    (msgValue < fileSize * s.storageFeePerByte →
      uploadFile s sender msgValue fileName fileType fileSize ipfsHash description
          isPublic timestamp = Except.error SolError.insufficientPayment ∧
      step s (Op.upload sender msgValue fileName fileType fileSize ipfsHash description
          isPublic timestamp) = s) := by
  constructor
  · refine ⟨uploadedState s sender fileName fileType fileSize ipfsHash description
      isPublic timestamp, ?_, by simp [uploadedState]⟩
    rw [uploadFile_eq, if_pos hfee, if_neg (by omega), if_neg (by omega)]
    rw [Nat.add_sub_cancel_left]
  · intro hlt
    have herr : uploadFile s sender msgValue fileName fileType fileSize ipfsHash description
        isPublic timestamp = Except.error SolError.insufficientPayment := by
      rw [uploadFile_eq, if_pos hfee, if_pos hlt]
    exact ⟨herr, by simp [step, herr]⟩

/-- Witness for C2: paying 2000 wei over the 7000 wei fee of the second
fixture upload refunds exactly 2000 and the revert branch fires on a
payment of 1 wei below the fee. -/
theorem uploadFile_fee_conservation_witness :
    (∃ s1, uploadFile wState0 2 (7 * wState0.storageFeePerByte + 2000) "b" "png" 7 "h2" "e"
        true 12 = Except.ok (wState0.fileIdCounter, 2000, s1) ∧
      s1.balance = wState0.balance + 7 * wState0.storageFeePerByte) ∧
    (6999 < 7 * wState0.storageFeePerByte →
      uploadFile wState0 2 6999 "b" "png" 7 "h2" "e" true 12
          = Except.error SolError.insufficientPayment ∧
      step wState0 (Op.upload 2 6999 "b" "png" 7 "h2" "e" true 12) = wState0) := by
  have h := uploadFile_fee_conservation wState0 2 2000 6999 "b" "png" 7 "h2" "e" true 12
    (by decide) (by decide)
  exact h

/-- C3: in every reachable state the public files array has no duplicates
and holds exactly the ids whose record is public and not deleted; a
successful public upload adds its id to the array and a successful delete
removes the id. -/
theorem getPublicFiles_consistency (s : ContractState) (hreach : Reachable s) :
    (getPublicFiles s).Nodup ∧
    (∀ i, i ∈ getPublicFiles s ↔
      ((s.files i).isPublic = true ∧ (s.files i).isDeleted = false)) ∧
    (∀ sender msgValue fileName fileType fileSize ipfsHash description timestamp i r s1,
      uploadFile s sender msgValue fileName fileType fileSize ipfsHash description true
        timestamp = Except.ok (i, r, s1) → i ∈ getPublicFiles s1) ∧
    (∀ sender fileId s1, deleteFile s sender fileId = Except.ok s1 →
      fileId ∉ getPublicFiles s1) := by
  obtain ⟨hnd, hmem, hempty⟩ := reachable_stateInv hreach
  refine ⟨hnd, hmem, ?_, ?_⟩
  · intro sender msgValue fileName fileType fileSize ipfsHash description timestamp i r s1 h
    obtain ⟨_, _, _, hout⟩ := uploadFile_ok_inv h
    injection hout with hid hrest
    injection hrest with hr hs1
    subst hid
    subst hs1
    simp [getPublicFiles, uploadedState]
  · intro sender fileId s1 h
    obtain ⟨hlt, _, hdel, hs1⟩ := deleteFile_ok_inv h
    subst hs1
    cases hp : (s.files fileId).isPublic with
    | false =>
      have hnin : fileId ∉ s.publicFiles := by
        intro hc
        have h2 := (hmem _).mp hc
        rw [hp] at h2
        simp at h2
      simpa [getPublicFiles, deletedState, hp] using hnin
    | true =>
      have hin : fileId ∈ s.publicFiles := (hmem fileId).mpr ⟨hp, hdel⟩
      have h2 := mem_swapRemove (y := fileId) hnd hin
      simp [getPublicFiles, deletedState, hp, h2]

/-- Witness for C3: the fixture state reached by two uploads and a delete
has a duplicate-free public index. -/
theorem getPublicFiles_consistency_witness : (getPublicFiles wStateDel).Nodup :=
  (getPublicFiles_consistency wStateDel ⟨1, [wOp0, wOp1, Op.delete 2 0], rfl⟩).1

/-- C4: once deleteFile succeeds on an id, getFile on that id fails for
every caller, including the original owner, after every further sequence of
transactions; the revert is the file-has-been-deleted error, which the spec
taxonomy surfaces as NotFound rather than as a distinct class. -/
theorem deleted_read_notfound (s : ContractState) (sender fileId : Nat)
    (s1 : ContractState) (h : deleteFile s sender fileId = Except.ok s1)
    (ops : List Op) (caller : Nat) :
    getFile (run s1 ops) caller fileId = Except.error SolError.fileHasBeenDeleted ∧
    specClass SolError.fileHasBeenDeleted = SpecError.notFound := by
  obtain ⟨hlt, _, _, hs1⟩ := deleteFile_ok_inv h
  have hlt1 : fileId < s1.fileIdCounter := by
    rw [hs1, deletedState_fileIdCounter]
    exact hlt
  have hdel1 : (s1.files fileId).isDeleted = true := by
    rw [hs1, deletedState_files, Function.update_same]
  obtain ⟨h2, h3⟩ := run_deleted_persists s1 ops hlt1 hdel1
  refine ⟨?_, rfl⟩
  unfold getFile
  rw [if_neg (not_le.mpr h2)]
  dsimp only
  rw [if_pos (by simp [h3])]

/-- Witness for C4: after the fixture delete of file 0 even the original
owner 2 can no longer read it. -/
theorem deleted_read_notfound_witness :
    getFile (run wStateDel []) 2 0 = Except.error SolError.fileHasBeenDeleted :=
  (deleted_read_notfound wState1 2 0 wStateDel (by rfl) [] 2).1

/-- C5: every successful uploadFile returns the current id counter and
bumps it, and the counter never decreases, so an id returned by a later
successful upload is strictly greater than every earlier one; ids are never
reused, deleted ones included. -/
theorem uploadFile_monotonic_ids (s : ContractState)
    (sender msgValue : Nat) (fileName fileType : String) (fileSize : Nat)
    (ipfsHash description : String) (isPublic : Bool) (timestamp : Nat)
    (id1 r1 : Nat) (s1 : ContractState)
    (h1 : uploadFile s sender msgValue fileName fileType fileSize ipfsHash description
      isPublic timestamp = Except.ok (id1, r1, s1))
    (ops : List Op)
    (sender2 msgValue2 : Nat) (fileName2 fileType2 : String) (fileSize2 : Nat)
    (ipfsHash2 description2 : String) (isPublic2 : Bool) (timestamp2 : Nat)
    (id2 r2 : Nat) (s2 : ContractState)
    (h2 : uploadFile (run s1 ops) sender2 msgValue2 fileName2 fileType2 fileSize2 ipfsHash2
      description2 isPublic2 timestamp2 = Except.ok (id2, r2, s2)) :
    id1 < id2 := by
  obtain ⟨_, _, _, hout1⟩ := uploadFile_ok_inv h1
  obtain ⟨_, _, _, hout2⟩ := uploadFile_ok_inv h2
  injection hout1 with hid1 hrest1
  injection hrest1 with hr1 hs1
  injection hout2 with hid2 hrest2
  have hc1 : s1.fileIdCounter = s.fileIdCounter + 1 := by
    rw [hs1]
    simp [uploadedState]
  have hc2 := run_counter_le s1 ops
  omega

/-- Witness for C5: the two fixture uploads return ids 0 and then 1. -/
theorem uploadFile_monotonic_ids_witness :
    uploadFile (deployState 1) 2 5000 "a" "txt" 5 "h" "d" false 11
        = Except.ok (0, 0, wState0) ∧
    uploadFile (run wState0 []) 2 9000 "b" "png" 7 "h2" "e" true 12
        = Except.ok (1, 2000, wState1) ∧
    (0 : Nat) < 1 := by
  refine ⟨rfl, rfl, ?_⟩
  exact uploadFile_monotonic_ids (deployState 1) 2 5000 "a" "txt" 5 "h" "d" false 11
    0 0 wState0 rfl [] 2 9000 "b" "png" 7 "h2" "e" true 12 1 2000 wState1 rfl

/-- Counterexample for C6: on the existing, non-deleted file 1 owned by
caller 2, revokeAccess with the zero recipient succeeds instead of failing
with the invalid-recipient error, because revokeAccess performs no
recipient validation. -/
theorem revokeAccess_zero_recipient_succeeds :
    (wState1.files 1).owner = 2 ∧ (wState1.files 1).isDeleted = false ∧
    1 < wState1.fileIdCounter ∧
    revokeAccess wState1 2 1 0 = Except.ok (sharedState wState1 1 0 false) ∧
    revokeAccess wState1 2 1 0 ≠ Except.error SolError.invalidRecipient := by
  refine ⟨by decide, by decide, by decide, rfl, ?_⟩
  intro hc
  rw [show revokeAccess wState1 2 1 0 = Except.ok (sharedState wState1 1 0 false)
    from rfl] at hc
  simp at hc

/-- C6 amended: on an existing non-deleted record owned by the caller,
shareFile with the zero recipient fails with the invalid-recipient error
and shareFile with the owner itself as recipient fails with the
cannot-share-with-yourself error (also classed InvalidRecipient by the spec
taxonomy); revokeAccess performs no recipient validation at all and
succeeds for every recipient, the zero address included. -/
theorem share_recipient_validation_amended (s : ContractState) (sender fileId : Nat)
    (hex : fileId < s.fileIdCounter) (hown : (s.files fileId).owner = sender)
    (hdel : (s.files fileId).isDeleted = false) :
    (shareFile s sender fileId 0 = Except.error SolError.invalidRecipient ∧
      specClass SolError.invalidRecipient = SpecError.invalidRecipient) ∧
    (sender ≠ 0 →
      shareFile s sender fileId sender = Except.error SolError.cannotShareWithSelf ∧
      specClass SolError.cannotShareWithSelf = SpecError.invalidRecipient) ∧
    (∀ recipient, ∃ s1, revokeAccess s sender fileId recipient = Except.ok s1) := by
  have h1 : ¬ (s.fileIdCounter ≤ fileId) := not_le.mpr hex
  have h2 : ¬ ((s.files fileId).owner ≠ sender) := by simp [hown]
  have h3 : ¬ ((s.files fileId).isDeleted = true) := by simp [hdel]
  refine ⟨⟨?_, rfl⟩, ?_, ?_⟩
  · unfold shareFile
    rw [if_neg h1, if_neg h2, if_neg h3, if_pos rfl]
  · intro hs0
    refine ⟨?_, rfl⟩
    unfold shareFile
    rw [if_neg h1, if_neg h2, if_neg h3, if_neg hs0, if_pos rfl]
  · intro recipient
    refine ⟨sharedState s fileId recipient false, ?_⟩
    unfold revokeAccess
    rw [if_neg h1, if_neg h2, if_neg h3]
    rfl

/-- Witness for C6 amended: sharing file 1 with the zero address fails with
the invalid-recipient error. -/
theorem share_recipient_validation_amended_witness :
    shareFile wState1 2 1 0 = Except.error SolError.invalidRecipient :=
  (share_recipient_validation_amended wState1 2 1 (by decide) (by decide) (by decide)).1.1

lemma sharedState_eq_self {s : ContractState} {fileId r : Nat} {b : Bool}
    (h : (s.files fileId).sharedWith r = b) : sharedState s fileId r b = s := by
  unfold sharedState
  dsimp only
  rw [← h, Function.update_eq_self]
  rw [show ({ s.files fileId with sharedWith := (s.files fileId).sharedWith } : File)
    = s.files fileId from rfl]
  rw [Function.update_eq_self]

lemma sharedState_overwrite (s : ContractState) (fileId r : Nat) (b1 b2 : Bool) :
    sharedState (sharedState s fileId r b1) fileId r b2 = sharedState s fileId r b2 := by
  unfold sharedState
  dsimp only
  rw [Function.update_same, Function.update_idem, Function.update_idem]

/-- C7: on an existing non-deleted record owned by the caller, revoking an
ungranted recipient succeeds and leaves the state literally unchanged;
granting twice commits the same state as granting once and leaves the
recipient granted exactly once, the sharedWith mapping being a set of
addresses and not a counter; and revoking after granting restores the
original ungranted state. -/
theorem grant_revoke_set_semantics (s : ContractState) (sender fileId r : Nat)
    (hex : fileId < s.fileIdCounter) (hown : (s.files fileId).owner = sender)
    (hdel : (s.files fileId).isDeleted = false) :
    ((s.files fileId).sharedWith r = false →
      revokeAccess s sender fileId r = Except.ok s) ∧
    (∀ s1, shareFile s sender fileId r = Except.ok s1 →
      shareFile s1 sender fileId r = Except.ok s1 ∧
      (s1.files fileId).sharedWith r = true ∧
      ((s.files fileId).sharedWith r = false →
        revokeAccess s1 sender fileId r = Except.ok s)) := by
  have h1 : ¬ (s.fileIdCounter ≤ fileId) := not_le.mpr hex
  have h2 : ¬ ((s.files fileId).owner ≠ sender) := by simp [hown]
  have h3 : ¬ ((s.files fileId).isDeleted = true) := by simp [hdel]
  constructor
  · intro hng
    unfold revokeAccess
    rw [if_neg h1, if_neg h2, if_neg h3]
    show Except.ok (sharedState s fileId r false) = Except.ok s
    rw [sharedState_eq_self hng]
  · intro s1 hs1
    obtain ⟨_, _, _, hr0, hrs, heq⟩ := shareFile_ok_inv hs1
    have hcnt : ¬ (s1.fileIdCounter ≤ fileId) := by
      rw [heq]
      simpa [sharedState] using h1
    have hfown : ¬ ((s1.files fileId).owner ≠ sender) := by
      rw [heq]
      simpa [sharedState, Function.update_same] using h2
    have hfdel : ¬ ((s1.files fileId).isDeleted = true) := by
      rw [heq]
      simpa [sharedState, Function.update_same] using h3
    have hfsh : (s1.files fileId).sharedWith r = true := by
      rw [heq]
      simp [sharedState, Function.update_same]
    refine ⟨?_, hfsh, ?_⟩
    · unfold shareFile
      rw [if_neg hcnt, if_neg hfown, if_neg hfdel, if_neg hr0, if_neg hrs]
      show Except.ok (sharedState s1 fileId r true) = Except.ok s1
      rw [sharedState_eq_self hfsh]
    · intro hng
      unfold revokeAccess
      rw [if_neg hcnt, if_neg hfown, if_neg hfdel]
      show Except.ok (sharedState s1 fileId r false) = Except.ok s
      rw [heq, sharedState_overwrite, sharedState_eq_self hng]

/-- Witness for C7: revoking the never-granted address 5 on file 1 returns
the fixture state unchanged. -/
theorem grant_revoke_set_semantics_witness :
    revokeAccess wState1 2 1 5 = Except.ok wState1 :=
  (grant_revoke_set_semantics wState1 2 1 5 (by decide) (by decide) (by decide)).1
    (by decide)

/-- C8: getMyFiles returns exactly the non-deleted ids of the caller
creation list in creation order, filtering tombstones at read time; a
successful deleteFile never compacts any creation list, and a successful
uploadFile appends the new id to the caller creation list. -/
theorem getMyFiles_filter_semantics :
    (∀ s caller, getMyFiles s caller
      = (s.userFiles caller).filter (fun i => !(s.files i).isDeleted)) ∧
    (∀ s sender fileId s1, deleteFile s sender fileId = Except.ok s1 →
      s1.userFiles = s.userFiles) ∧
    (∀ s sender msgValue fileName fileType fileSize ipfsHash description isPublic
        timestamp i r s1,
      uploadFile s sender msgValue fileName fileType fileSize ipfsHash description isPublic
        timestamp = Except.ok (i, r, s1) →
      s1.userFiles sender = s.userFiles sender ++ [i]) := by
  refine ⟨getMyFiles_eq_filter, ?_, ?_⟩
  · intro s sender fileId s1 h
    obtain ⟨_, _, _, hs1⟩ := deleteFile_ok_inv h
    rw [hs1, deletedState_userFiles]
  · intro s sender msgValue fileName fileType fileSize ipfsHash description isPublic
      timestamp i r s1 h
    obtain ⟨_, _, _, hout⟩ := uploadFile_ok_inv h
    injection hout with hid hrest
    injection hrest with hr hs1
    subst hid
    subst hs1
    simp [uploadedState, Function.update_same]

/-- Witness for C8: deleting file 0 leaves the creation lists untouched,
and getMyFiles of the owner filters the tombstoned id 0 out. -/
theorem getMyFiles_filter_semantics_witness :
    wStateDel.userFiles = wState1.userFiles ∧ getMyFiles wStateDel 2 = [1] := by
  constructor
  · exact getMyFiles_filter_semantics.2.1 wState1 2 0 wStateDel (by rfl)
  · rw [getMyFiles_filter_semantics.1 wStateDel 2]
    decide

/-- C9: updateStorageFee reverts with the Ownable unauthorized error for
every caller other than the administrator, and for the administrator it
changes only the per-byte fee rate, which all later registrations use
through calculateStorageFee, while every record, every creation list, the
public index, the id counter, the administrator and the balance stay
unchanged. -/
theorem updateStorageFee_admin_frame (s : ContractState) (sender newFeePerByte : Nat) :
    (sender ≠ s.contractOwner →
      updateStorageFee s sender newFeePerByte = Except.error SolError.ownableUnauthorized ∧
      specClass SolError.ownableUnauthorized = SpecError.unauthorized) ∧
    (sender = s.contractOwner →
      ∃ s1, updateStorageFee s sender newFeePerByte = Except.ok s1 ∧
        s1.storageFeePerByte = newFeePerByte ∧
        s1.files = s.files ∧
        s1.userFiles = s.userFiles ∧
        s1.publicFiles = s.publicFiles ∧
        s1.fileIdCounter = s.fileIdCounter ∧
        s1.contractOwner = s.contractOwner ∧
        s1.balance = s.balance ∧
        (∀ fileSize, calculateStorageFee s1 fileSize
          = if fileSize * newFeePerByte ≤ UINT256MAX then Except.ok (fileSize * newFeePerByte)
            else Except.error SolError.arithmeticOverflow)) := by
  constructor
  · intro hne
    refine ⟨?_, rfl⟩
    unfold updateStorageFee
    rw [if_pos hne]
  · intro heq
    refine ⟨{ s with storageFeePerByte := newFeePerByte }, ?_, rfl, rfl, rfl, rfl, rfl,
      rfl, rfl, fun fileSize => rfl⟩
    unfold updateStorageFee
    rw [if_neg (by simp [heq])]

/-- Witness for C9: a stranger cannot change the fee, and the deployer can,
touching nothing but the rate. -/
theorem updateStorageFee_admin_frame_witness :
    (updateStorageFee (deployState 1) 4 77 = Except.error SolError.ownableUnauthorized) ∧
    (∃ s1, updateStorageFee (deployState 1) 1 77 = Except.ok s1 ∧
      s1.storageFeePerByte = 77 ∧
      s1.files = (deployState 1).files ∧
      s1.userFiles = (deployState 1).userFiles ∧
      s1.publicFiles = (deployState 1).publicFiles ∧
      s1.fileIdCounter = (deployState 1).fileIdCounter ∧
      s1.contractOwner = (deployState 1).contractOwner ∧
      s1.balance = (deployState 1).balance ∧
      (∀ fileSize, calculateStorageFee s1 fileSize
        = if fileSize * 77 ≤ UINT256MAX then Except.ok (fileSize * 77)
          else Except.error SolError.arithmeticOverflow)) := by
  constructor
  · exact ((updateStorageFee_admin_frame (deployState 1) 4 77).1 (by decide)).1
  · exact (updateStorageFee_admin_frame (deployState 1) 1 77).2 (by decide)

/-- C10: withdrawFunds reverts with the Ownable unauthorized error for
every caller other than the administrator; for the administrator it reverts
with the no-funds error when the balance is zero and otherwise transfers
the entire retained balance to the administrator in one call, leaving a
zero balance behind as getContractBalance then reports. -/
theorem withdrawFunds_admin_drain (s : ContractState) (sender : Nat) :
    (sender ≠ s.contractOwner →
      withdrawFunds s sender = Except.error SolError.ownableUnauthorized ∧
      specClass SolError.ownableUnauthorized = SpecError.unauthorized) ∧
    (sender = s.contractOwner → s.balance = 0 →
      withdrawFunds s sender = Except.error SolError.noFundsToWithdraw) ∧
    (sender = s.contractOwner → 0 < s.balance →
      withdrawFunds s sender
        = Except.ok (s.contractOwner, s.balance, { s with balance := 0 }) ∧
      getContractBalance { s with balance := 0 } sender = Except.ok 0) := by
  refine ⟨?_, ?_, ?_⟩
  · intro hne
    refine ⟨?_, rfl⟩
    unfold withdrawFunds
    rw [if_pos hne]
  · intro heq hz
    unfold withdrawFunds
    rw [if_neg (by simp [heq]), if_pos hz]
  · intro heq hpos
    constructor
    · unfold withdrawFunds
      rw [if_neg (by simp [heq]), if_neg (by omega)]
    · unfold getContractBalance
      rw [if_neg (by simp [heq])]

/-- Witness for C10: the deployer drains the 12000 wei of retained fees of
the fixture state in one call. -/
theorem withdrawFunds_admin_drain_witness :
    withdrawFunds wState1 1
      = Except.ok (wState1.contractOwner, wState1.balance, { wState1 with balance := 0 }) ∧
    getContractBalance { wState1 with balance := 0 } 1 = Except.ok 0 :=
  (withdrawFunds_admin_drain wState1 1).2.2 (by decide) (by decide)

end OnyxChain
